import Mathlib

/-!
A shallow embedding of `main.go` and `utils/http.go` of station-csv-to-address.

Go strings are modelled by Lean `String` (sequences of Unicode code points, i.e.
valid UTF-8 text).  Go `int` values are `Int`; a run-time panic (index out of
range, negative `make` length) is the `none` of an `Option`.  The `error`
interface is the type `GoError`, and a nil `error` is `none : Option GoError`.
-/

namespace StationCsv

/-! ## Go standard library: `unicode.IsSpace`, `strings.TrimSpace`, `strings.Split`,
`strings.ReplaceAll` -/

/-- Go `unicode.IsSpace`: in Latin-1 the characters tab, LF, VT, FF, CR, space,
U+0085 and U+00A0; above Latin-1 the Unicode `White_Space` property. -/
def isSpace (c : Char) : Bool :=
  let r := c.toNat
  if r ≤ 0xFF then
    r == 0x09 || r == 0x0A || r == 0x0B || r == 0x0C || r == 0x0D || r == 0x20
      || r == 0x85 || r == 0xA0
  else
    r == 0x1680 || (0x2000 ≤ r && r ≤ 0x200A) || r == 0x2028 || r == 0x2029
      || r == 0x202F || r == 0x205F || r == 0x3000

/-- Go `strings.TrimSpace`: all leading and trailing white space removed. -/
def TrimSpace (s : String) : String :=
  String.mk ((s.data.dropWhile isSpace).rdropWhile isSpace)

/-- Splitting of a character sequence at every occurrence of `sep`. -/
def splitChars (sep : Char) : List Char → List (List Char)
  | [] => [[]]
  | c :: cs =>
    if c = sep then [] :: splitChars sep cs
    else
      match splitChars sep cs with
      | [] => [[c]]
      | p :: ps => (c :: p) :: ps

/-- Go `strings.Split(s, sep)` for a separator `sep` of one character: the
substrings between the separators; a string without separator gives `[s]`. -/
def Split (s : String) (sep : Char) : List String :=
  (splitChars sep s.data).map String.mk

/-- Go `strings.ReplaceAll(s, old, new)` for an `old` of one character. -/
def ReplaceAll (s : String) (old : Char) (new : String) : String :=
  String.mk (s.data.flatMap (fun c => if c = old then new.data else [c]))

/-! ## `main.go`: the name parser -/

/-- Source `regex`, main.go 140-146.  `splits[0]` and `splits[1]` are slice
indexings; an index out of range is a panic (`none`). -/
def regex (content : String) : Option (String × String) :=
  let splits := Split content '('
  if splits.length = 2 then do
    let s0 ← splits[0]?
    let s1 ← splits[1]?
    some (TrimSpace s0, TrimSpace (ReplaceAll s1 ')' ""))
  else do
    let s0 ← splits[0]?
    some (TrimSpace s0, "")

/-! ## `utils/http.go`: the resolver client's data and helpers -/

/-- The Go `error` interface: an error value carrying its message. -/
structure GoError where
  Message : String
  deriving DecidableEq, Repr

/-- Source `Station`, http.go 43-52 (the coordinates `X`, `Y` are `float64` and
are read by no code of the repository; they are left out). -/
structure Station where
  Name : String
  Prefecture : String
  Line : String
  Postal : String
  Prev : String
  Next : String
  deriving DecidableEq, Repr

/-- Source `Response`, http.go 54-56. -/
structure Response where
  Stations : List Station
  deriving DecidableEq, Repr

/-- Source `StationResponse`, http.go 59-61. -/
structure StationResponse where
  Response : Response
  deriving DecidableEq, Repr

/-- Source `AddressDetail`, http.go 102-108. -/
structure AddressDetail where
  Prefecture : String
  Address1 : String
  Address2 : String
  Address3 : String
  Address4 : String
  deriving DecidableEq, Repr

/-- Source `Address`, http.go 94-99. -/
structure Address where
  PrefectureCode : String
  Japanese : AddressDetail
  Kana : AddressDetail
  English : AddressDetail
  deriving DecidableEq, Repr

/-- Source `AddressResponse`, http.go 88-91. -/
structure AddressResponse where
  PostalCode : String
  Addresses : List Address
  deriving DecidableEq, Repr

/-- Source `Response.GetLine`, http.go 63-73: the returned pair is
`(*Station, error)`, a nil pointer being `none`. -/
def GetLine : List Station → String → Option Station × Option GoError
  | [], _ => (none, none)
  | station :: rest, line =>
    if station.Line = line then (some station, none)
    else if station.Prefecture = line then (some station, none)
    else GetLine rest line

/-- Method form of `GetLine` on a `Response`. -/
def Response.GetLine (r : Response) (line : String) : Option Station × Option GoError :=
  StationCsv.GetLine r.Stations line

/-- Source `AddressResponse.GetFormattedJapaneseAddress`, http.go 111-122;
`fmt.Sprintf("%s%s%s", a, b, c)` is the concatenation `a ++ b ++ c`. -/
def AddressResponse.GetFormattedJapaneseAddress (response : AddressResponse) : String :=
  match response.Addresses with
  | [] => ""
  | first :: _ =>
    let japanese := first.Japanese
    japanese.Prefecture ++ japanese.Address1 ++ japanese.Address2

/-- Source interface `Request`, http.go 10-13: the two remote lookups.  A call
returns either a response or an error; the resolver is a function of the URL. -/
structure Request where
  StationToAddress : String → Except GoError StationResponse
  PostalCodeToPref : String → Except GoError AddressResponse

/-! ## `main.go`: results, jobs and the worker -/

/-- Source `Result`, main.go 12-16. -/
structure Result where
  index : Int
  address : String
  err : Option GoError
  deriving DecidableEq, Repr

/-- The element type of the `jobs` channel, main.go 32-35. -/
structure Job where
  index : Int
  record : List String
  deriving DecidableEq, Repr

/-- The observable actions of one pass of the worker's loop body. -/
inductive Event where
  | stationLookup (url : String)
  | addressLookup (url : String)
  | send (r : Result)
  deriving DecidableEq, Repr

/-- URL prefix of the station lookup, main.go 91. -/
def stationURL : String := "https://express.heartrails.com/api/json?method=getStations&name="

/-- URL of the address lookup for a postal code, main.go 113. -/
def postalURL (postal : String) : String :=
  "https://jp-postal-code-api.ttskch.com/api/v1/" ++ postal ++ ".json"

/-- Lines 113-123 of the worker's loop body: the address lookup for the chosen
postal code and the send of its outcome. -/
def workerAddress (http : Request) (index : Int) (postal : String) : List Event :=
  match http.PostalCodeToPref (postalURL postal) with
  | .error err =>
    [.addressLookup (postalURL postal), .send { index := index, address := "", err := some err }]
  | .ok addressRes =>
    let address := addressRes.GetFormattedJapaneseAddress
    [.addressLookup (postalURL postal), .send { index := index, address := address, err := none }]

/-- One pass of the loop body of source `worker`, main.go 89-124, for one job:
the sequence of lookups made and Results sent; `none` is a panic
(`job.record[0]` on a record without fields). -/
def workerBody (http : Request) (job : Job) : Option (List Event) := do
  let field ← job.record[0]?
  let (station, area) ← regex field
  match http.StationToAddress (stationURL ++ station) with
  | .error err =>
    some [.stationLookup (stationURL ++ station),
          .send { index := job.index, address := "", err := some err }]
  | .ok stationRes =>
    if area ≠ "" then
      let (ourStation, err) := stationRes.Response.GetLine area
      if err.isSome || ourStation.isNone then
        some [.stationLookup (stationURL ++ station),
              .send { index := job.index, address := "ERROR", err := none }]
      else do
        let ourStation ← ourStation
        some (.stationLookup (stationURL ++ station)
          :: workerAddress http job.index ourStation.Postal)
    else
      match stationRes.Response.Stations with
      | [] =>
        some [.stationLookup (stationURL ++ station),
              .send { index := job.index, address := "ERROR", err := none }]
      | first :: _ =>
        some (.stationLookup (stationURL ++ station)
          :: workerAddress http job.index first.Postal)

/-- The Results sent on the result channel in a sequence of events. -/
def sent : List Event → List Result
  | [] => []
  | .send r :: es => r :: sent es
  | _ :: es => sent es

/-- The URLs of the address lookups made in a sequence of events. -/
def addressCalls : List Event → List String
  | [] => []
  | .addressLookup url :: es => url :: addressCalls es
  | _ :: es => addressCalls es

/-! ## `main.go`: the collector -/

/-- The cell written for one Result, main.go 64-68. -/
def render (result : Result) : String :=
  if result.err.isSome then "ERROR" else result.address

/-- One pass of the collector loop, main.go 63-69: `results[result.index] = ...`;
an index outside the slice is a panic (`none`). -/
def collectStep (results : List String) (result : Result) : Option (List String) :=
  if 0 ≤ result.index ∧ result.index < results.length then
    some (results.set result.index.toNat (render result))
  else none

/-- The collector loop over the Results in their order of arrival. -/
def collect (results : List String) : List Result → Option (List String)
  | [] => some results
  | result :: rest =>
    match collectStep results result with
    | none => none
    | some results1 => collect results1 rest

/-- Go `make([]string, n)`: `n` empty strings; a negative `n` is a panic. -/
def makeSlice (n : Int) : Option (List String) :=
  if 0 ≤ n then some (List.replicate n.toNat "") else none

/-- Go `make(chan T, n)`: a buffered channel of capacity `n`; a negative `n`
is a panic. -/
def makeChan (n : Int) : Option Nat :=
  if 0 ≤ n then some n.toNat else none

/-! ## `main.go`: the worker pool

The goroutines of `main` are interleaved by a schedule: a list naming, step
by step, the goroutine that moves next. -/

/-- Number of workers, main.go 26. -/
def numWorkers : Nat := 10

/-- The jobs sent by the loop `for i, record := range records[1:]`, main.go
48-53, the counter starting at `i`. -/
def jobsFrom (i : Int) : List (List String) → List Job
  | [] => []
  | record :: rest => { index := i, record := record } :: jobsFrom (i + 1) rest

/-- Where a worker goroutine stands in `for job := range jobs`: waiting to
receive, holding a received job, or past the end of the loop (`wg.Done`). -/
inductive WorkerState where
  | idle
  | busy (job : Job)
  | exited
  deriving DecidableEq, Repr

/-- The goroutine that makes the next move. -/
inductive Actor where
  | mainG
  | workerG (w : Nat)
  deriving DecidableEq, Repr

/-- State shared by the goroutines: the jobs `main` has still to send, the
buffered `jobs` channel, the workers, and every Result sent on `resultsChan`
so far, in the order of sending (the order in which the collector receives). -/
structure Pool where
  pending : List Job
  jobs : List Job
  capacity : Nat
  jobsClosed : Bool
  workers : List WorkerState
  resultsChan : List Result
  deriving DecidableEq, Repr

/-- A move of `main`, main.go 48-54: send the next job (blocked while the
buffer is full), and `close(jobs)` after the last one. -/
def Pool.stepMain (p : Pool) : Pool :=
  match p.pending with
  | job :: rest =>
    if p.jobs.length < p.capacity then { p with pending := rest, jobs := p.jobs ++ [job] }
    else p
  | [] => { p with jobsClosed := true }

/-- A move of worker `w`, main.go 87-124: an idle worker receives the first job
of the buffer, or leaves the loop when the channel is closed and empty, or stays
blocked; a worker holding a job runs the loop body and sends its Results. -/
def Pool.stepWorker (http : Request) (w : Nat) (p : Pool) : Option Pool :=
  match p.workers[w]? with
  | none => some p
  | some .exited => some p
  | some .idle =>
    match p.jobs with
    | job :: rest => some { p with jobs := rest, workers := p.workers.set w (.busy job) }
    | [] =>
      if p.jobsClosed then some { p with workers := p.workers.set w .exited }
      else some p
  | some (.busy job) =>
    match workerBody http job with
    | none => none
    | some events =>
      some { p with resultsChan := p.resultsChan ++ sent events,
                    workers := p.workers.set w .idle }

/-- One move of the named goroutine. -/
def Pool.step (http : Request) (a : Actor) (p : Pool) : Option Pool :=
  match a with
  | .mainG => some p.stepMain
  | .workerG w => p.stepWorker http w

/-- The moves of a whole schedule; `none` when a worker panics. -/
def Pool.run (http : Request) : List Actor → Pool → Option Pool
  | [], p => some p
  | a :: rest, p =>
    match p.step http a with
    | none => none
    | some p1 => Pool.run http rest p1

/-- What `wg.Wait()` waits for, main.go 58: every worker has called `wg.Done`. -/
def Pool.finished (p : Pool) : Bool :=
  p.workers.all (fun w => w == .exited)

/-- What `main` has set up when the workers start, main.go 29-45. -/
structure Setup where
  results : List String
  jobsCap : Nat
  resultsCap : Nat
  toSend : List Job
  deriving DecidableEq, Repr

/-- Lines 29-48 of `main`: the three `make` calls with size `len(records)-1`
and the slice expression `records[1:]` (a panic on an empty `records`). -/
def mainSetup (records : List (List String)) : Option Setup := do
  let results ← makeSlice ((records.length : Int) - 1)
  let jobsCap ← makeChan ((records.length : Int) - 1)
  let resultsCap ← makeChan ((records.length : Int) - 1)
  let rows ← (match records with
    | [] => none
    | _ :: rows => some rows)
  some { results := results, jobsCap := jobsCap, resultsCap := resultsCap,
         toSend := jobsFrom 0 rows }

/-- The pool at the moment the workers have been started, main.go 41-45. -/
def Setup.pool (s : Setup) : Pool :=
  { pending := s.toSend, jobs := [], capacity := s.jobsCap, jobsClosed := false,
    workers := List.replicate numWorkers .idle, resultsChan := [] }

/-- How a run of `main` under a schedule stands at the schedule's end. -/
inductive Outcome where
  | panicked
  | running
  | wrote (prefs : List (List String))
  deriving DecidableEq, Repr

/-- Source `main`, main.go 18-80, on the records read by `readCSV`, under a
schedule: the rows handed to `writeCSV` once every worker is done and the
collector has drained `resultsChan`. -/
def main (http : Request) (records : List (List String)) (sched : List Actor) : Outcome :=
  match mainSetup records with
  | none => .panicked
  | some setup =>
    match setup.pool.run http sched with
    | none => .panicked
    | some p =>
      if p.finished then
        match collect setup.results p.resultsChan with
        | none => .panicked
        | some results => .wrote (results.map (fun result => [result]))
      else .running

/-! ## Invariant of the pool -/

/-- The jobs held by workers between their receive and their send. -/
def busyJobs (workers : List WorkerState) : List Job :=
  workers.flatMap (fun w =>
    match w with
    | .busy job => [job]
    | _ => [])

/-- A Result is the one sent by the loop body for a job. -/
def ResultOf (http : Request) (job : Job) (r : Result) : Prop :=
  ∃ events, workerBody http job = some events ∧ sent events = [r]

/-- Invariant of the pool for the batch `all`: the Results sent so far are those
of a list `done` of jobs, in order; every job of the batch is either done, held
by a worker, in the buffer, or still to be sent, exactly once; the channel is
closed only after the last send; a worker has left its loop only once the
channel is closed and empty. -/
def Pool.Inv (http : Request) (all : List Job) (p : Pool) : Prop :=
  (∃ done : List Job, List.Forall₂ (ResultOf http) done p.resultsChan
      ∧ ((done : Multiset Job) + (busyJobs p.workers : Multiset Job)
          + (p.jobs : Multiset Job) + (p.pending : Multiset Job) = (all : Multiset Job)))
  ∧ (p.jobsClosed = true → p.pending = [])
  ∧ (WorkerState.exited ∈ p.workers → p.jobsClosed = true ∧ p.jobs = [])
  ∧ p.workers.length = numWorkers

/-! ## Failing lookups -/

/-- The station lookup made for a record returns an error. -/
def StationLookupFails (http : Request) (row : List String) : Prop :=
  ∃ field name hint err, row[0]? = some field ∧ regex field = some (name, hint)
    ∧ http.StationToAddress (stationURL ++ name) = .error err

/-- An address lookup made by the loop body for a record returns an error. -/
def AddressLookupFails (http : Request) (row : List String) : Prop :=
  ∃ index events url err, workerBody http { index := index, record := row } = some events
    ∧ url ∈ addressCalls events ∧ http.PostalCodeToPref url = .error err

/-! ## A concrete resolver and schedules, for evaluation -/

/-- A station with the given prefecture, line and postal code. -/
def mkStation (pref line postal : String) : Station :=
  { Name := "S", Prefecture := pref, Line := line, Postal := postal, Prev := "", Next := "" }

/-- An address detail with empty fields. -/
def noDetail : AddressDetail :=
  { Prefecture := "", Address1 := "", Address2 := "", Address3 := "", Address4 := "" }

/-- An address response with one address of the given Japanese parts. -/
def mkAddress (pref a1 a2 : String) : AddressResponse :=
  { PostalCode := "",
    Addresses := [
      { PrefectureCode := "13",
        Japanese := { noDetail with Prefecture := pref, Address1 := a1, Address2 := a2, Address3 := "x" },
        Kana := noDetail,
        English := noDetail }] }

/-- A resolver that knows the station "Shibuya" (two candidates) and the station
"Empty" (no candidate), fails on every other station, and knows the postal
codes "100" (an address), "200" (an address) and "300" (no address). -/
def demoRequest : Request where
  StationToAddress := fun url =>
    if url = stationURL ++ "Shibuya" then
      .ok { Response := { Stations := [mkStation "Tokyo" "Yamanote" "100", mkStation "Kanagawa" "Ginza" "200",
                                       mkStation "Chiba" "Tozai" "300", mkStation "Saitama" "Keio" "400"] } }
    else if url = stationURL ++ "Empty" then .ok { Response := { Stations := [] } }
    else .error { Message := "station lookup failed" }
  PostalCodeToPref := fun url =>
    if url = postalURL "100" then .ok (mkAddress "Tokyo" "Shibuya-ku" "Dogenzaka")
    else if url = postalURL "200" then .ok (mkAddress "Kanagawa" "Yokohama" "Naka")
    else if url = postalURL "300" then .ok { PostalCode := "300", Addresses := [] }
    else .error { Message := "address lookup failed" }

/-- The schedule in which `main` sends `m` jobs and closes the channel, worker 0
then handles every job, and every worker leaves its loop. -/
def serialSchedule (m : Nat) : List Actor :=
  List.replicate (m + 1) .mainG ++ List.replicate (2 * m) (.workerG 0)
    ++ (List.range numWorkers).map .workerG

/-- A schedule for six jobs in which `main` and four workers interleave; the
Results are sent in the order 2, 1, 4, 0, 3, 5. -/
def mixedSchedule : List Actor :=
  [.workerG 3, .mainG, .workerG 2, .mainG, .workerG 0, .mainG, .workerG 1, .workerG 1,
   .workerG 0, .mainG, .mainG, .workerG 1, .mainG, .workerG 5, .workerG 5, .workerG 2,
   .mainG, .workerG 2, .workerG 1, .workerG 2] ++ (List.range numWorkers).map .workerG

/-- A table of a header and six data rows, the fourth of which fails in the
station lookup and the fifth in the address lookup. -/
def demoRecords : List (List String) :=
  [["station"], ["Shibuya (Ginza)", "x"], ["Shibuya"], ["Shibuya (Tozai)"], ["Nowhere"],
   ["Shibuya (Keio)"], ["Empty"]]

/-- The rows written for `demoRecords`. -/
def demoPrefs : List (List String) :=
  [["KanagawaYokohamaNaka"], ["TokyoShibuya-kuDogenzaka"], [""], ["ERROR"], ["ERROR"], ["ERROR"]]

/-! ## The name parser: lemmas -/

theorem splitChars_of_not_mem (sep : Char) (cs : List Char) (h : sep ∉ cs) :
    splitChars sep cs = [cs] := by
  induction cs with
  | nil => rfl
  | cons c cs ih =>
    have hc : c ≠ sep := fun e => h (by simp [e])
    have hcs : sep ∉ cs := fun e => h (List.mem_cons_of_mem _ e)
    simp [splitChars, hc, ih hcs]

theorem splitChars_ne_nil (sep : Char) (cs : List Char) : splitChars sep cs ≠ [] := by
  induction cs with
  | nil => simp [splitChars]
  | cons c cs ih =>
    unfold splitChars
    split
    · simp
    · split <;> simp

theorem splitChars_append (sep : Char) (pre post : List Char) (h : sep ∉ pre) :
    splitChars sep (pre ++ sep :: post) = pre :: splitChars sep post := by
  induction pre with
  | nil => simp [splitChars]
  | cons c cs ih =>
    have hc : c ≠ sep := fun e => h (by simp [e])
    have hcs : sep ∉ cs := fun e => h (List.mem_cons_of_mem _ e)
    simp [splitChars, hc, ih hcs]

theorem splitChars_length (sep : Char) (cs : List Char) :
    (splitChars sep cs).length = cs.count sep + 1 := by
  induction cs with
  | nil => rfl
  | cons c cs ih =>
    unfold splitChars
    by_cases hc : c = sep
    · subst hc
      simp [ih]
    · have hne : (c == sep) = false := by simpa using hc
      rw [if_neg hc, List.count_cons, hne]
      cases hsp : splitChars sep cs with
      | nil => exact absurd hsp (splitChars_ne_nil sep cs)
      | cons p ps =>
        rw [hsp] at ih
        simpa using ih

theorem replaceAll_empty_data (s : String) (old : Char) :
    (ReplaceAll s old "").data = s.data.filter (fun c => c ≠ old) := by
  unfold ReplaceAll
  simp only
  induction s.data with
  | nil => rfl
  | cons c cs ih =>
    by_cases hc : c = old
    · simpa [List.flatMap_cons, hc] using ih
    · simpa [List.flatMap_cons, hc] using ih

/-- The parser on a field without `(`. -/
theorem regex_of_no_paren (s : String) (h : '(' ∉ s.data) :
    regex s = some (TrimSpace s, "") := by
  simp [regex, Split, splitChars_of_not_mem _ _ h]

/-- The parser on a field split at its first `(`. -/
theorem regex_of_first_paren (pre post : String) (h : '(' ∉ pre.data) :
    regex (pre ++ "(" ++ post) =
      if '(' ∈ post.data then some (TrimSpace pre, "")
      else some (TrimSpace pre, TrimSpace (ReplaceAll post ')' "")) := by
  have hd : (pre ++ "(" ++ post).data = pre.data ++ '(' :: post.data := by
    simp [String.data_append]
  by_cases hp : '(' ∈ post.data
  · have hl : (splitChars '(' post.data).length ≠ 1 := by
      rw [splitChars_length]
      have := List.count_pos_iff.mpr hp
      omega
    simp [regex, Split, hd, splitChars_append _ _ _ h, hp, hl]
  · simp [regex, Split, hd, splitChars_append _ _ _ h, hp, splitChars_of_not_mem _ _ hp]

/-! ## Candidate selection: lemmas -/

theorem getLine_fst (stations : List Station) (hint : String) :
    (GetLine stations hint).1 =
      stations.find? (fun s => decide (s.Line = hint ∨ s.Prefecture = hint)) := by
  induction stations with
  | nil => rfl
  | cons st rest ih =>
    unfold GetLine
    by_cases h1 : st.Line = hint
    · simp [h1]
    · by_cases h2 : st.Prefecture = hint
      · simp [h1, h2]
      · simp [h1, h2, ih]

theorem getLine_snd (stations : List Station) (hint : String) :
    (GetLine stations hint).2 = none := by
  induction stations with
  | nil => rfl
  | cons st rest ih =>
    unfold GetLine
    split
    · rfl
    · split
      · rfl
      · exact ih

theorem find_congr_of_forall (p q : Station → Bool) (stations : List Station)
    (h : ∀ s ∈ stations, p s = q s) : stations.find? p = stations.find? q := by
  induction stations with
  | nil => rfl
  | cons st rest ih =>
    have h0 : p st = q st := h st (by simp)
    have hr : ∀ s ∈ rest, p s = q s := fun s hs => h s (List.mem_cons_of_mem _ hs)
    simp [List.find?_cons, h0, ih hr]

theorem getLine_none_of_no_match (stations : List Station) (hint : String)
    (h : ∀ s ∈ stations, s.Line ≠ hint ∧ s.Prefecture ≠ hint) :
    GetLine stations hint = (none, none) := by
  induction stations with
  | nil => rfl
  | cons st rest ih =>
    have h0 := h st (by simp)
    have hr : ∀ s ∈ rest, s.Line ≠ hint ∧ s.Prefecture ≠ hint :=
      fun s hs => h s (List.mem_cons_of_mem _ hs)
    simp [GetLine, h0.1, h0.2, ih hr]

/-! ## The worker's loop body: lemmas -/

theorem regex_ne_none (content : String) : regex content ≠ none := by
  have hne := splitChars_ne_nil '(' content.data
  cases hsp : splitChars '(' content.data with
  | nil => exact absurd hsp hne
  | cons a rest =>
    cases rest with
    | nil => simp [regex, Split, hsp]
    | cons b rest2 =>
      cases rest2 with
      | nil => simp [regex, Split, hsp]
      | cons c rest3 => simp [regex, Split, hsp]

theorem sent_workerAddress (http : Request) (index : Int) (postal : String) :
    ∃ r, sent (workerAddress http index postal) = [r] ∧ r.index = index := by
  unfold workerAddress
  cases http.PostalCodeToPref (postalURL postal) with
  | error err => exact ⟨_, rfl, rfl⟩
  | ok addressRes => exact ⟨_, rfl, rfl⟩

theorem addressCalls_workerAddress (http : Request) (index : Int) (postal : String) :
    addressCalls (workerAddress http index postal) = [postalURL postal] := by
  unfold workerAddress
  cases http.PostalCodeToPref (postalURL postal) with
  | error err => rfl
  | ok addressRes => rfl

/-- The loop body after the parse, by the outcome of the station lookup and of
the selection. -/
theorem workerBody_of_parse (http : Request) (job : Job) (field name hint : String)
    (h0 : job.record[0]? = some field) (hr : regex field = some (name, hint)) :
    workerBody http job = some
      (match http.StationToAddress (stationURL ++ name) with
       | .error err =>
         [.stationLookup (stationURL ++ name),
          .send { index := job.index, address := "", err := some err }]
       | .ok stationRes =>
         if hint ≠ "" then
           match (GetLine stationRes.Response.Stations hint).1 with
           | none =>
             [.stationLookup (stationURL ++ name),
              .send { index := job.index, address := "ERROR", err := none }]
           | some st => .stationLookup (stationURL ++ name) :: workerAddress http job.index st.Postal
         else
           match stationRes.Response.Stations with
           | [] =>
             [.stationLookup (stationURL ++ name),
              .send { index := job.index, address := "ERROR", err := none }]
           | first :: _ =>
             .stationLookup (stationURL ++ name) :: workerAddress http job.index first.Postal) := by
  unfold workerBody
  simp only [h0, hr, Option.bind_eq_bind, Option.some_bind]
  cases hst : http.StationToAddress (stationURL ++ name) with
  | error err => rfl
  | ok stationRes =>
    simp only
    by_cases hh : hint = ""
    · simp only [hh, ne_eq, not_true_eq_false, if_false]
      cases stationRes.Response.Stations with
      | nil => rfl
      | cons first rest => rfl
    · simp only [ne_eq, hh, not_false_eq_true, if_true]
      have h2 := getLine_snd stationRes.Response.Stations hint
      cases hg : GetLine stationRes.Response.Stations hint with
      | mk ourStation err =>
        rw [hg] at h2
        simp only at h2
        subst h2
        cases ourStation with
        | none => simp [Response.GetLine, hg]
        | some st => simp [Response.GetLine, hg]

/-- The loop body does not panic on a record with a first field. -/
theorem workerBody_ne_none (http : Request) (job : Job) (h : job.record ≠ []) :
    ∃ events, workerBody http job = some events := by
  obtain ⟨field, h0⟩ : ∃ field, job.record[0]? = some field := by
    cases hrec : job.record with
    | nil => exact absurd hrec h
    | cons f rest => exact ⟨f, by simp⟩
  obtain ⟨⟨name, hint⟩, hr⟩ : ∃ q, regex field = some q :=
    Option.ne_none_iff_exists'.mp (regex_ne_none field)
  exact ⟨_, workerBody_of_parse http job field name hint h0 hr⟩

/-- The loop body panics on a record without fields. -/
theorem workerBody_nil (http : Request) (index : Int) :
    workerBody http { index := index, record := [] } = none := by
  simp [workerBody]

/-- A pass of the loop body that does not panic sends exactly one Result, and
it carries the job's index. -/
theorem sent_of_workerBody (http : Request) (job : Job) (events : List Event)
    (hev : workerBody http job = some events) :
    ∃ r, sent events = [r] ∧ r.index = job.index := by
  cases h0 : job.record[0]? with
  | none => simp [workerBody, h0] at hev
  | some field =>
    cases hr : regex field with
    | none => exact absurd hr (regex_ne_none field)
    | some q =>
      obtain ⟨name, hint⟩ := q
      rw [workerBody_of_parse http job field name hint h0 hr] at hev
      injection hev with hev
      subst hev
      cases http.StationToAddress (stationURL ++ name) with
      | error err => exact ⟨_, rfl, rfl⟩
      | ok stationRes =>
        simp only
        by_cases hh : hint = ""
        · simp only [hh, ne_eq, not_true_eq_false, if_false]
          cases stationRes.Response.Stations with
          | nil => exact ⟨_, rfl, rfl⟩
          | cons first rest => exact sent_workerAddress http job.index _
        · simp only [ne_eq, hh, not_false_eq_true, if_true]
          cases (GetLine stationRes.Response.Stations hint).1 with
          | none => exact ⟨_, rfl, rfl⟩
          | some st => exact sent_workerAddress http job.index _

/-! ## The collector: lemmas -/

theorem collect_spec (rs : List Result) (init : List String)
    (hin : ∀ r ∈ rs, 0 ≤ r.index ∧ r.index < init.length)
    (hnd : (rs.map (fun r => r.index)).Nodup) :
    ∃ out, collect init rs = some out ∧ out.length = init.length
      ∧ (∀ r ∈ rs, out[r.index.toNat]? = some (render r))
      ∧ (∀ i : Nat, (∀ r ∈ rs, r.index.toNat ≠ i) → out[i]? = init[i]?) := by
  induction rs generalizing init with
  | nil => exact ⟨init, rfl, rfl, by simp, fun _ _ => rfl⟩
  | cons r rest ih =>
    have hr := hin r (by simp)
    have hlen : (init.set r.index.toNat (render r)).length = init.length := by simp
    have hin1 : ∀ q ∈ rest, 0 ≤ q.index ∧
        q.index < (init.set r.index.toNat (render r)).length := by
      intro q hq
      rw [hlen]
      exact hin q (List.mem_cons_of_mem _ hq)
    rw [List.map_cons, List.nodup_cons] at hnd
    obtain ⟨out, hc, hl, hout, hkeep⟩ := ih (init.set r.index.toNat (render r)) hin1 hnd.2
    have hfresh : ∀ q ∈ rest, q.index.toNat ≠ r.index.toNat := by
      intro q hq heq
      have hq0 := (hin q (List.mem_cons_of_mem _ hq)).1
      apply hnd.1
      rw [List.mem_map]
      refine ⟨q, hq, ?_⟩
      have h1 := Int.toNat_of_nonneg hq0
      have h2 := Int.toNat_of_nonneg hr.1
      omega
    have hlt : r.index.toNat < init.length := by
      have h2 := Int.toNat_of_nonneg hr.1
      omega
    refine ⟨out, ?_, by rw [hl, hlen], ?_, ?_⟩
    · simp [collect, collectStep, hr, hc]
    · intro q hq
      rcases List.mem_cons.mp hq with h | h
      · subst h
        rw [hkeep q.index.toNat hfresh]
        simp [List.getElem?_set, hlt]
      · exact hout q h
    · intro i hi
      have h1 : ∀ q ∈ rest, q.index.toNat ≠ i := fun q hq => hi q (List.mem_cons_of_mem _ hq)
      have h2 : r.index.toNat ≠ i := hi r (by simp)
      rw [hkeep i h1]
      simp [List.getElem?_set, h2]

/-- Indices that are a permutation of `0..M-1` are in range, distinct, and
cover `0..M-1`. -/
theorem indices_of_perm (M : Nat) (rs : List Result)
    (hperm : (rs.map (fun r => r.index)).Perm ((List.range M).map (fun i : Nat => (i : Int)))) :
    (∀ r ∈ rs, 0 ≤ r.index ∧ r.index < (M : Int))
    ∧ (rs.map (fun r => r.index)).Nodup
    ∧ (∀ i : Nat, i < M → ∃ r ∈ rs, r.index.toNat = i) := by
  refine ⟨?_, ?_, ?_⟩
  · intro r hr
    have hm : r.index ∈ (List.range M).map (fun i : Nat => (i : Int)) :=
      hperm.subset (List.mem_map.mpr ⟨r, hr, rfl⟩)
    obtain ⟨i, hi, hir⟩ := List.mem_map.mp hm
    rw [List.mem_range] at hi
    omega
  · apply hperm.symm.nodup
    apply List.Nodup.map
    · intro a b hab
      exact Int.ofNat_inj.mp hab
    · exact List.nodup_range M
  · intro i hi
    have hm : (i : Int) ∈ rs.map (fun r => r.index) :=
      hperm.symm.subset (List.mem_map.mpr ⟨i, List.mem_range.mpr hi, rfl⟩)
    obtain ⟨r, hr, hri⟩ := List.mem_map.mp hm
    exact ⟨r, hr, by simp [hri]⟩

/-- The collector on Results whose indices are a permutation of `0..M-1`. -/
theorem collect_of_perm (M : Nat) (rs : List Result)
    (hperm : (rs.map (fun r => r.index)).Perm ((List.range M).map (fun i : Nat => (i : Int)))) :
    ∃ out, collect (List.replicate M "") rs = some out ∧ out.length = M
      ∧ (∀ r ∈ rs, out[r.index.toNat]? = some (render r)) := by
  obtain ⟨hin, hnd, _⟩ := indices_of_perm M rs hperm
  obtain ⟨out, hc, hl, hout, _⟩ := collect_spec rs (List.replicate M "")
    (by simpa using hin) hnd
  exact ⟨out, hc, by simpa using hl, hout⟩

/-- The collector's result is the same for every order of arrival. -/
theorem collect_perm_eq (M : Nat) (rs rs1 : List Result) (out : List String)
    (hperm : (rs.map (fun r => r.index)).Perm ((List.range M).map (fun i : Nat => (i : Int))))
    (hout : collect (List.replicate M "") rs = some out) (h1 : rs1.Perm rs) :
    collect (List.replicate M "") rs1 = some out := by
  have hperm1 : (rs1.map (fun r => r.index)).Perm
      ((List.range M).map (fun i : Nat => (i : Int))) := (h1.map _).trans hperm
  obtain ⟨o, ho, hl, hcell⟩ := collect_of_perm M rs hperm
  obtain ⟨o1, ho1, hl1, hcell1⟩ := collect_of_perm M rs1 hperm1
  rw [ho] at hout
  injection hout with hout
  subst hout
  rw [ho1]
  congr 1
  apply List.ext_getElem?
  intro i
  by_cases hi : i < M
  · obtain ⟨r, hr, hri⟩ := (indices_of_perm M rs hperm).2.2 i hi
    have e1 := hcell r hr
    have e2 := hcell1 r (h1.symm.subset hr)
    rw [hri] at e1 e2
    rw [e1, e2]
  · rw [List.getElem?_eq_none (by omega), List.getElem?_eq_none (by omega)]

/-! ## The pool: lemmas -/

theorem set_split (ws : List WorkerState) (w : Nat) (x : WorkerState) (h : ws[w]? = some x) :
    ∃ l1 l2, ws = l1 ++ x :: l2 ∧ ∀ y, ws.set w y = l1 ++ y :: l2 := by
  induction ws generalizing w with
  | nil => simp at h
  | cons a rest ih =>
    cases w with
    | zero =>
      simp at h
      subst h
      exact ⟨[], rest, rfl, fun y => rfl⟩
    | succ n =>
      simp at h
      obtain ⟨l1, l2, h1, h2⟩ := ih n h
      exact ⟨a :: l1, l2, by simp [h1], fun y => by simp [h2 y]⟩

theorem busyJobs_append (l1 l2 : List WorkerState) :
    busyJobs (l1 ++ l2) = busyJobs l1 ++ busyJobs l2 := by
  simp [busyJobs]

theorem busyJobs_cons (x : WorkerState) (l : List WorkerState) :
    busyJobs (x :: l) = busyJobs [x] ++ busyJobs l := by
  simp [busyJobs]

theorem busyJobs_of_all_exited (ws : List WorkerState)
    (h : ws.all (fun w => w == WorkerState.exited) = true) : busyJobs ws = [] := by
  induction ws with
  | nil => rfl
  | cons a rest ih =>
    simp only [List.all_cons, Bool.and_eq_true, beq_iff_eq] at h
    rw [busyJobs_cons, ih h.2, h.1]
    rfl

theorem jobsFrom_length (i : Int) (rows : List (List String)) :
    (jobsFrom i rows).length = rows.length := by
  induction rows generalizing i with
  | nil => rfl
  | cons r rest ih => simp [jobsFrom, ih]

theorem jobsFrom_getElem (i : Int) (rows : List (List String)) (k : Nat) :
    (jobsFrom i rows)[k]? = rows[k]?.map (fun record => { index := i + k, record := record }) := by
  induction rows generalizing i k with
  | nil => simp [jobsFrom]
  | cons r rest ih =>
    cases k with
    | zero => simp [jobsFrom]
    | succ n =>
      simp only [jobsFrom, List.getElem?_cons_succ, ih]
      congr 1
      funext record
      congr 1
      push_cast
      ring

theorem jobsFrom_indices (i : Nat) (rows : List (List String)) :
    (jobsFrom i rows).map (fun job => job.index)
      = (List.range' i rows.length).map (fun k : Nat => (k : Int)) := by
  induction rows generalizing i with
  | nil => rfl
  | cons r rest ih =>
    have := ih (i + 1)
    simp only [jobsFrom, List.map_cons, List.length_cons, List.range'_succ]
    rw [← this]
    simp

theorem busyJobs_set (l1 l2 : List WorkerState) (x : WorkerState) :
    (busyJobs (l1 ++ x :: l2) : Multiset Job)
      = (busyJobs [x] : Multiset Job) + ((busyJobs l1 : Multiset Job) + (busyJobs l2 : Multiset Job)) := by
  rw [busyJobs_append, busyJobs_cons x l2, ← Multiset.coe_add, ← Multiset.coe_add]
  abel

theorem inv_stepMain (http : Request) (all : List Job) (p : Pool) (h : p.Inv http all) :
    p.stepMain.Inv http all := by
  obtain ⟨⟨done, hf, hm⟩, hc, he, hl⟩ := h
  unfold Pool.stepMain
  cases hp : p.pending with
  | nil =>
    simp only
    refine ⟨⟨done, hf, ?_⟩, fun _ => rfl, fun hx => ⟨rfl, (he hx).2⟩, hl⟩
    simpa [hp] using hm
  | cons job rest =>
    simp only
    by_cases hcap : p.jobs.length < p.capacity
    · rw [if_pos hcap]
      have hopen : p.jobsClosed ≠ true := by
        intro hcl
        have := hc hcl
        rw [hp] at this
        cases this
      refine ⟨⟨done, hf, ?_⟩, fun hcl => absurd hcl hopen, fun hx => absurd (he hx).1 hopen, hl⟩
      rw [hp] at hm
      rw [← hm]
      simp only [← Multiset.coe_add, ← Multiset.cons_coe, ← Multiset.singleton_add,
        Multiset.coe_nil]
      abel
    · rw [if_neg hcap]
      exact ⟨⟨done, hf, hm⟩, hc, he, hl⟩

theorem inv_stepWorker (http : Request) (all : List Job) (p p1 : Pool) (w : Nat)
    (h : p.Inv http all) (hs : p.stepWorker http w = some p1) : p1.Inv http all := by
  obtain ⟨⟨done, hf, hm⟩, hc, he, hl⟩ := h
  unfold Pool.stepWorker at hs
  cases hw : p.workers[w]? with
  | none =>
    simp only [hw] at hs
    injection hs with hs
    subst hs
    exact ⟨⟨done, hf, hm⟩, hc, he, hl⟩
  | some st =>
    obtain ⟨l1, l2, hws, hset⟩ := set_split p.workers w st hw
    cases st with
    | exited =>
      simp only [hw] at hs
      injection hs with hs
      subst hs
      exact ⟨⟨done, hf, hm⟩, hc, he, hl⟩
    | idle =>
      simp only [hw] at hs
      cases hj : p.jobs with
      | nil =>
        simp only [hj] at hs
        by_cases hcl : p.jobsClosed = true
        · rw [if_pos hcl] at hs
          injection hs with hs
          subst hs
          refine ⟨⟨done, hf, ?_⟩, hc, fun _ => ⟨hcl, rfl⟩, by simpa using hl⟩
          simp only
          rw [hset, busyJobs_set]
          rw [hws, busyJobs_set, hj] at hm
          exact hm
        · rw [if_neg hcl] at hs
          injection hs with hs
          subst hs
          exact ⟨⟨done, hf, hm⟩, hc, he, hl⟩
      | cons job rest =>
        simp only [hj] at hs
        injection hs with hs
        subst hs
        have hnoexit : WorkerState.exited ∉ p.workers := by
          intro hx
          have := (he hx).2
          rw [hj] at this
          cases this
        refine ⟨⟨done, hf, ?_⟩, hc, ?_, by simpa using hl⟩
        · simp only
          rw [hset, busyJobs_set]
          rw [hws, busyJobs_set, hj] at hm
          rw [← hm]
          have e1 : busyJobs [WorkerState.busy job] = [job] := rfl
          have e2 : busyJobs [WorkerState.idle] = [] := rfl
          rw [e1, e2, ← Multiset.cons_coe job rest, ← Multiset.singleton_add,
            ← Multiset.cons_coe job [], ← Multiset.singleton_add]
          simp only [Multiset.coe_nil, add_zero, zero_add]
          abel
        · intro hx
          simp only at hx
          rcases List.mem_or_eq_of_mem_set hx with h1 | h1
          · exact absurd h1 hnoexit
          · cases h1
    | busy job =>
      simp only [hw] at hs
      cases hb : workerBody http job with
      | none => simp [hb] at hs
      | some events =>
        simp only [hb] at hs
        injection hs with hs
        subst hs
        obtain ⟨r, hr, _⟩ := sent_of_workerBody http job events hb
        refine ⟨⟨done ++ [job], ?_, ?_⟩, hc, ?_, by simpa using hl⟩
        · simp only [hr]
          exact List.rel_append hf (List.Forall₂.cons ⟨events, hb, hr⟩ List.Forall₂.nil)
        · simp only
          rw [hset, busyJobs_set]
          rw [hws, busyJobs_set] at hm
          rw [← hm]
          have e1 : busyJobs [WorkerState.busy job] = [job] := rfl
          have e2 : busyJobs [WorkerState.idle] = [] := rfl
          simp only [e1, e2, ← Multiset.coe_add, Multiset.coe_nil]
          abel
        · intro hx
          simp only at hx
          rcases List.mem_or_eq_of_mem_set hx with h1 | h1
          · exact he h1
          · cases h1

theorem inv_run (http : Request) (all : List Job) (sched : List Actor) (p p1 : Pool)
    (h : p.Inv http all) (hs : Pool.run http sched p = some p1) : p1.Inv http all := by
  induction sched generalizing p with
  | nil =>
    simp only [Pool.run] at hs
    injection hs with hs
    subst hs
    exact h
  | cons a rest ih =>
    simp only [Pool.run] at hs
    cases hst : p.step http a with
    | none => simp [hst] at hs
    | some p2 =>
      simp only [hst] at hs
      apply ih p2 _ hs
      cases a with
      | mainG =>
        simp only [Pool.step] at hst
        injection hst with hst
        subst hst
        exact inv_stepMain http all p h
      | workerG w => exact inv_stepWorker http all p p2 w h hst

theorem inv_pool (http : Request) (s : Setup) : s.pool.Inv http s.toSend := by
  refine ⟨⟨[], List.Forall₂.nil, ?_⟩, ?_, ?_, ?_⟩
  · have e : busyJobs (List.replicate numWorkers WorkerState.idle) = [] := by decide
    simp [Setup.pool, e]
  · intro h
    simp [Setup.pool] at h
  · intro h
    simp [Setup.pool] at h
  · simp [Setup.pool]

theorem forall₂_exists_right (http : Request) (js : List Job) (rs : List Result)
    (h : List.Forall₂ (ResultOf http) js rs) (job : Job) (hj : job ∈ js) :
    ∃ r ∈ rs, ResultOf http job r := by
  induction h with
  | nil => simp at hj
  | cons hab _ ih =>
    rcases List.mem_cons.mp hj with e | e
    · subst e
      exact ⟨_, by simp, hab⟩
    · obtain ⟨r, hr, hres⟩ := ih e
      exact ⟨r, List.mem_cons_of_mem _ hr, hres⟩

theorem forall₂_indices (http : Request) (js : List Job) (rs : List Result)
    (h : List.Forall₂ (ResultOf http) js rs) :
    rs.map (fun r => r.index) = js.map (fun job => job.index) := by
  induction h with
  | nil => rfl
  | cons hab _ ih =>
    obtain ⟨events, hev, hs⟩ := hab
    obtain ⟨r, hr, hi⟩ := sent_of_workerBody http _ events hev
    rw [hs] at hr
    injection hr with hr
    subst hr
    simp [ih, hi]

theorem mainSetup_cons (header : List String) (rows : List (List String)) :
    mainSetup (header :: rows) = some
      { results := List.replicate rows.length "", jobsCap := rows.length,
        resultsCap := rows.length, toSend := jobsFrom 0 rows } := by
  simp [mainSetup, makeSlice, makeChan]

theorem mainSetup_nil : mainSetup [] = none := by
  simp [mainSetup, makeSlice]

/-- When every worker has left its loop, the Results sent are those of a
permutation of the batch. -/
theorem finished_done (http : Request) (all : List Job) (p : Pool) (h : p.Inv http all)
    (hfin : p.finished = true) :
    ∃ done : List Job, List.Forall₂ (ResultOf http) done p.resultsChan ∧ done.Perm all := by
  obtain ⟨⟨done, hf, hm⟩, hc, he, hl⟩ := h
  unfold Pool.finished at hfin
  have hb := busyJobs_of_all_exited p.workers hfin
  have hex : WorkerState.exited ∈ p.workers := by
    cases hws : p.workers with
    | nil =>
      rw [hws] at hl
      simp [numWorkers] at hl
    | cons a rest =>
      rw [hws] at hfin
      simp only [List.all_cons, Bool.and_eq_true, beq_iff_eq] at hfin
      rw [hfin.1]
      simp
  obtain ⟨hcl, hj⟩ := he hex
  have hp := hc hcl
  rw [hb, hj, hp] at hm
  simp only [Multiset.coe_nil, add_zero] at hm
  exact ⟨done, hf, Multiset.coe_eq_coe.mp hm⟩

/-- A finished run of `main` has written one row per data row, and row `k` is
the rendering of the one Result the loop body sends for data row `k`. -/
theorem main_wrote (http : Request) (records : List (List String)) (sched : List Actor)
    (prefs : List (List String)) (h : main http records sched = .wrote prefs) :
    ∃ header rows, records = header :: rows ∧ prefs.length = rows.length
      ∧ ∀ (k : Nat) (row : List String), rows[k]? = some row →
          ∃ events r, workerBody http { index := k, record := row } = some events
            ∧ sent events = [r] ∧ prefs[k]? = some [render r] := by
  cases records with
  | nil => simp [main, mainSetup_nil] at h
  | cons header rows =>
    refine ⟨header, rows, rfl, ?_⟩
    unfold main at h
    rw [mainSetup_cons] at h
    simp only at h
    cases hrun : Pool.run http sched
        (Setup.pool ⟨List.replicate rows.length "", rows.length, rows.length,
          jobsFrom 0 rows⟩) with
    | none => simp [hrun] at h
    | some p =>
      simp only [hrun] at h
      by_cases hfin : p.finished = true
      · rw [if_pos hfin] at h
        have hinv := inv_run http _ sched _ p (inv_pool http _) hrun
        obtain ⟨done, hf, hperm⟩ := finished_done http _ p hinv hfin
        simp only at hperm
        have hidx : (p.resultsChan.map (fun r => r.index)).Perm
            ((List.range rows.length).map (fun i : Nat => (i : Int))) := by
          rw [forall₂_indices http done p.resultsChan hf, List.range_eq_range']
          have := jobsFrom_indices 0 rows
          simp only [Nat.cast_zero] at this
          rw [← this]
          exact hperm.map _
        obtain ⟨out, hc, hl, hcell⟩ := collect_of_perm rows.length p.resultsChan hidx
        rw [hc] at h
        simp only [Outcome.wrote.injEq] at h
        subst h
        refine ⟨by simpa using hl, ?_⟩
        intro k row hk
        have hjob : ({ index := k, record := row } : Job) ∈ jobsFrom 0 rows := by
          have := jobsFrom_getElem 0 rows k
          rw [hk] at this
          simp only [Option.map_some', zero_add] at this
          exact List.getElem?_mem this
        obtain ⟨r, hr, events, hev, hs⟩ :=
          forall₂_exists_right http done p.resultsChan hf _ (hperm.symm.subset hjob)
        obtain ⟨r1, hr1, hi⟩ := sent_of_workerBody http _ events hev
        rw [hs] at hr1
        injection hr1 with hr1
        subst hr1
        simp only at hi
        have hc2 := hcell r hr
        rw [hi] at hc2
        simp only [Int.toNat_ofNat] at hc2
        exact ⟨events, r, hev, hs, by simp [List.getElem?_map, hc2]⟩
      · rw [if_neg hfin] at h
        cases h

/-! ## The pool: a schedule that finishes -/

theorem run_append (http : Request) (s1 s2 : List Actor) (p : Pool) :
    Pool.run http (s1 ++ s2) p = (Pool.run http s1 p).bind (Pool.run http s2) := by
  induction s1 generalizing p with
  | nil => rfl
  | cons a rest ih =>
    simp only [List.cons_append, Pool.run]
    cases p.step http a with
    | none => rfl
    | some p1 => exact ih p1

theorem run_main_sends (http : Request) (js q : List Job) (cap : Nat) (ws : List WorkerState)
    (ch : List Result) (hcap : q.length + js.length ≤ cap) :
    Pool.run http (List.replicate js.length Actor.mainG) ⟨js, q, cap, false, ws, ch⟩
      = some ⟨[], q ++ js, cap, false, ws, ch⟩ := by
  induction js generalizing q with
  | nil => simp [Pool.run]
  | cons j rest ih =>
    have hlt : q.length < cap := by
      simp only [List.length_cons] at hcap
      omega
    have hcap1 : (q ++ [j]).length + rest.length ≤ cap := by
      simp only [List.length_cons, List.length_append, List.length_nil] at hcap ⊢
      omega
    simp only [List.length_cons, List.replicate_succ, Pool.run, Pool.step, Pool.stepMain, hlt,
      if_true]
    rw [ih (q ++ [j]) hcap1]
    simp

theorem run_worker_serial (http : Request) (js : List Job) (cap : Nat) (ws : List WorkerState)
    (ch : List Result) (hrec : ∀ job ∈ js, job.record ≠ []) :
    ∃ rs, Pool.run http (List.replicate (2 * js.length) (Actor.workerG 0))
        ⟨[], js, cap, true, WorkerState.idle :: ws, ch⟩
      = some ⟨[], [], cap, true, WorkerState.idle :: ws, rs⟩ := by
  induction js generalizing ch with
  | nil => exact ⟨ch, rfl⟩
  | cons j rest ih =>
    obtain ⟨events, hev⟩ := workerBody_ne_none http j (hrec j (by simp))
    obtain ⟨rs, hrs⟩ := ih (ch ++ sent events) (fun job hj => hrec job (List.mem_cons_of_mem _ hj))
    refine ⟨rs, ?_⟩
    have e : 2 * (j :: rest).length = 2 * rest.length + 1 + 1 := by
      simp only [List.length_cons]
      omega
    rw [e, List.replicate_succ, List.replicate_succ]
    simp only [Pool.run, Pool.step, Pool.stepWorker, List.getElem?_cons_zero, List.set_cons_zero,
      hev]
    exact hrs

theorem run_workers_exit (http : Request) (cap : Nat) (ch : List Result) :
    Pool.run http ((List.range numWorkers).map Actor.workerG)
        ⟨[], [], cap, true, List.replicate numWorkers WorkerState.idle, ch⟩
      = some ⟨[], [], cap, true, List.replicate numWorkers WorkerState.exited, ch⟩ := by
  rfl

theorem jobsFrom_record (i : Int) (rows : List (List String)) (h : ∀ row ∈ rows, row ≠ []) :
    ∀ job ∈ jobsFrom i rows, job.record ≠ [] := by
  induction rows generalizing i with
  | nil => simp [jobsFrom]
  | cons r rest ih =>
    intro job hj
    simp only [jobsFrom, List.mem_cons] at hj
    rcases hj with e | e
    · subst e
      exact h r (by simp)
    · exact ih (i + 1) (fun row hr => h row (List.mem_cons_of_mem _ hr)) job e

/-- The serial schedule brings the pool of a batch without empty records to the
state in which every worker has left its loop. -/
theorem run_serial (http : Request) (rows : List (List String)) (h : ∀ row ∈ rows, row ≠ []) :
    ∃ p, Pool.run http (serialSchedule rows.length)
        (Setup.pool ⟨List.replicate rows.length "", rows.length, rows.length, jobsFrom 0 rows⟩)
      = some p ∧ p.finished = true := by
  have hlen := jobsFrom_length 0 rows
  obtain ⟨rs, hrs⟩ := run_worker_serial http (jobsFrom 0 rows) rows.length
    (List.replicate (numWorkers - 1) WorkerState.idle) [] (jobsFrom_record 0 rows h)
  refine ⟨⟨[], [], rows.length, true, List.replicate numWorkers WorkerState.exited, rs⟩, ?_, rfl⟩
  have h1 := run_main_sends http (jobsFrom 0 rows) [] rows.length
    (List.replicate numWorkers WorkerState.idle) [] (by simp [hlen])
  rw [hlen] at h1 hrs
  unfold serialSchedule
  rw [run_append, run_append, List.replicate_succ', run_append]
  simp only [Setup.pool, h1, Option.some_bind, List.nil_append]
  have h2 : Pool.run http [Actor.mainG]
      ⟨[], jobsFrom 0 rows, rows.length, false, List.replicate numWorkers WorkerState.idle, []⟩
      = some ⟨[], jobsFrom 0 rows, rows.length, true,
          WorkerState.idle :: List.replicate (numWorkers - 1) WorkerState.idle, []⟩ := rfl
  rw [h2, Option.some_bind, hrs, Option.some_bind]
  exact run_workers_exit http rows.length rs

/-! ## The outcome of a row does not depend on its index -/

theorem sent_workerAddress_eq (http : Request) (postal : String) :
    ∃ address err, ∀ index : Int,
      sent (workerAddress http index postal) = [{ index := index, address := address, err := err }] := by
  unfold workerAddress
  cases http.PostalCodeToPref (postalURL postal) with
  | error e => exact ⟨"", some e, fun _ => rfl⟩
  | ok addressRes => exact ⟨addressRes.GetFormattedJapaneseAddress, none, fun _ => rfl⟩

/-- The address and the error of the Result sent for a record are the same
whatever index the job carries. -/
theorem workerBody_outcome (http : Request) (row : List String) :
    ∃ address err, ∀ (index : Int) (events : List Event),
      workerBody http { index := index, record := row } = some events →
      sent events = [{ index := index, address := address, err := err }] := by
  cases h0 : row[0]? with
  | none =>
    refine ⟨"", none, fun index events hev => ?_⟩
    simp [workerBody, h0] at hev
  | some field =>
    cases hr : regex field with
    | none => exact absurd hr (regex_ne_none field)
    | some q =>
      obtain ⟨name, hint⟩ := q
      have hw := fun index : Int =>
        workerBody_of_parse http { index := index, record := row } field name hint h0 hr
      cases hst : http.StationToAddress (stationURL ++ name) with
      | error e =>
        refine ⟨"", some e, fun index events hev => ?_⟩
        rw [hw index, hst] at hev
        injection hev with hev
        subst hev
        rfl
      | ok stationRes =>
        by_cases hh : hint = ""
        · cases hs : stationRes.Response.Stations with
          | nil =>
            refine ⟨"ERROR", none, fun index events hev => ?_⟩
            rw [hw index, hst] at hev
            simp only [hh, ne_eq, not_true_eq_false, if_false, hs] at hev
            injection hev with hev
            subst hev
            rfl
          | cons first rest =>
            obtain ⟨address, err, ha⟩ := sent_workerAddress_eq http first.Postal
            refine ⟨address, err, fun index events hev => ?_⟩
            rw [hw index, hst] at hev
            simp only [hh, ne_eq, not_true_eq_false, if_false, hs] at hev
            injection hev with hev
            subst hev
            exact ha index
        · cases hg : (GetLine stationRes.Response.Stations hint).1 with
          | none =>
            refine ⟨"ERROR", none, fun index events hev => ?_⟩
            rw [hw index, hst] at hev
            simp only [ne_eq, hh, not_false_eq_true, if_true, hg] at hev
            injection hev with hev
            subst hev
            rfl
          | some st =>
            obtain ⟨address, err, ha⟩ := sent_workerAddress_eq http st.Postal
            refine ⟨address, err, fun index events hev => ?_⟩
            rw [hw index, hst] at hev
            simp only [ne_eq, hh, not_false_eq_true, if_true, hg] at hev
            injection hev with hev
            subst hev
            exact ha index

/-- A finished state of the pool lets `main` write its rows. -/
theorem main_of_finished (http : Request) (header : List String) (rows : List (List String))
    (sched : List Actor) (p : Pool)
    (hrun : Pool.run http sched
        (Setup.pool ⟨List.replicate rows.length "", rows.length, rows.length, jobsFrom 0 rows⟩)
      = some p)
    (hfin : p.finished = true) :
    ∃ prefs, main http (header :: rows) sched = .wrote prefs := by
  have hinv := inv_run http _ sched _ p (inv_pool http _) hrun
  obtain ⟨done, hf, hperm⟩ := finished_done http _ p hinv hfin
  simp only at hperm
  have hidx : (p.resultsChan.map (fun r => r.index)).Perm
      ((List.range rows.length).map (fun i : Nat => (i : Int))) := by
    rw [forall₂_indices http done p.resultsChan hf, List.range_eq_range']
    have := jobsFrom_indices 0 rows
    simp only [Nat.cast_zero] at this
    rw [← this]
    exact hperm.map _
  obtain ⟨out, hc, _, _⟩ := collect_of_perm rows.length p.resultsChan hidx
  refine ⟨out.map (fun result => [result]), ?_⟩
  unfold main
  rw [mainSetup_cons]
  simp only [hrun, hfin, if_true, hc]

/-- On a table with a header whose data rows all have a first field, `main`
under the serial schedule runs to the end and writes its rows. -/
theorem main_serial (http : Request) (header : List String) (rows : List (List String))
    (h : ∀ row ∈ rows, row ≠ []) :
    ∃ prefs, main http (header :: rows) (serialSchedule rows.length) = .wrote prefs := by
  obtain ⟨p, hrun, hfin⟩ := run_serial http rows h
  exact main_of_finished http header rows _ p hrun hfin

/-! ## Failing lookups: lemmas -/

theorem sent_workerAddress_error (http : Request) (index : Int) (postal url : String)
    (err : GoError) (hu : url ∈ addressCalls (workerAddress http index postal))
    (he : http.PostalCodeToPref url = .error err) :
    sent (workerAddress http index postal) = [{ index := index, address := "", err := some err }] := by
  rw [addressCalls_workerAddress, List.mem_singleton] at hu
  subst hu
  simp [workerAddress, he, sent]

theorem sent_of_address_error (http : Request) (job : Job) (events : List Event) (url : String)
    (err : GoError) (hev : workerBody http job = some events) (hu : url ∈ addressCalls events)
    (he : http.PostalCodeToPref url = .error err) :
    sent events = [{ index := job.index, address := "", err := some err }] := by
  cases h0 : job.record[0]? with
  | none => simp [workerBody, h0] at hev
  | some field =>
    cases hr : regex field with
    | none => exact absurd hr (regex_ne_none field)
    | some q =>
      obtain ⟨name, hint⟩ := q
      rw [workerBody_of_parse http job field name hint h0 hr] at hev
      injection hev with hev
      subst hev
      cases hst : http.StationToAddress (stationURL ++ name) with
      | error e =>
        rw [hst] at hu
        simp [addressCalls] at hu
      | ok stationRes =>
        rw [hst] at hu
        simp only at hu ⊢
        by_cases hh : hint = ""
        · simp only [hh, ne_eq, not_true_eq_false, if_false] at hu ⊢
          cases hs : stationRes.Response.Stations with
          | nil =>
            rw [hs] at hu
            simp [addressCalls] at hu
          | cons first rest =>
            rw [hs] at hu
            simp only [addressCalls] at hu
            exact sent_workerAddress_error http job.index first.Postal url err hu he
        · simp only [ne_eq, hh, not_false_eq_true, if_true] at hu ⊢
          cases hg : (GetLine stationRes.Response.Stations hint).1 with
          | none =>
            rw [hg] at hu
            simp [addressCalls] at hu
          | some st =>
            rw [hg] at hu
            simp only [addressCalls] at hu
            exact sent_workerAddress_error http job.index st.Postal url err hu he

/-- A record whose station lookup or address lookup fails is rendered `"ERROR"`. -/
theorem render_of_lookup_fails (http : Request) (row : List String)
    (hfail : StationLookupFails http row ∨ AddressLookupFails http row)
    (index : Int) (events : List Event) (r : Result)
    (hev : workerBody http { index := index, record := row } = some events)
    (hs : sent events = [r]) : render r = "ERROR" := by
  obtain ⟨address, err, hout⟩ := workerBody_outcome http row
  have hr := hout index events hev
  rw [hs] at hr
  injection hr with hr
  subst hr
  suffices herr : ∃ e, err = some e by
    obtain ⟨e, he⟩ := herr
    simp [render, he]
  rcases hfail with ⟨field, name, hint, e, h0, hp, hst⟩ | ⟨i0, ev0, url, e, hev0, hu, he⟩
  · have hw := workerBody_of_parse http { index := index, record := row } field name hint h0 hp
    rw [hst, hev] at hw
    injection hw with hw
    subst hw
    have := hout index _ hev
    simp only [sent, List.cons.injEq, Result.mk.injEq, and_true, true_and] at this
    exact ⟨e, this.2.symm⟩
  · have h1 := sent_of_address_error http _ ev0 url e hev0 hu he
    have h2 := hout i0 ev0 hev0
    rw [h1] at h2
    simp only [List.cons.injEq, Result.mk.injEq, and_true, true_and] at h2
    exact ⟨e, h2.2.symm⟩

/-! ## The claims on the name parser, the selection and the formatting -/

/-- C4: a field `pre ++ "(" ++ post` with exactly one `(` is parsed into the
trimmed `pre` and the trimmed `post` without its `)` characters (the `)` are
removed first, then the white space is trimmed); a field without `(` is parsed
into the trimmed field and the empty hint; the two examples of the claim hold. -/
theorem regex_name_and_hint (s pre post : String) :
    (s = pre ++ "(" ++ post → s.data.count '(' = 1 →
      regex s = some (TrimSpace pre,
        TrimSpace (String.mk (post.data.filter (fun c => c ≠ ')')))))
    ∧ (s.data.count '(' = 0 → regex s = some (TrimSpace s, ""))
    ∧ regex "Shibuya (Ginza Line)" = some ("Shibuya", "Ginza Line")
    ∧ regex "Shibuya" = some ("Shibuya", "") := by
  refine ⟨?_, ?_, by decide, by decide⟩
  · intro hs hc
    subst hs
    have hd : (pre ++ "(" ++ post).data = pre.data ++ '(' :: post.data := by
      simp [String.data_append]
    rw [hd, List.count_append, List.count_cons] at hc
    simp only [beq_self_eq_true, if_true] at hc
    have h1 : '(' ∉ pre.data := by
      intro hm
      have := List.count_pos_iff.mpr hm
      omega
    have h2 : '(' ∉ post.data := by
      intro hm
      have := List.count_pos_iff.mpr hm
      omega
    rw [regex_of_first_paren pre post h1, if_neg h2]
    have hr : ReplaceAll post ')' "" = String.mk (post.data.filter (fun c => c ≠ ')')) := by
      apply String.ext
      exact replaceAll_empty_data post ')'
    rw [hr]
  · intro hc
    exact regex_of_no_paren s (List.count_eq_zero.mp hc)

/-- Witness of C4: a field with one `(`, inner white space and two `)`, and a
field without `(`. -/
theorem regex_name_and_hint_witness :
    regex " 新宿 ( 山手)線) " = some ("新宿", "山手線")
    ∧ regex "  Ueno " = some ("Ueno", "") :=
  ⟨((regex_name_and_hint " 新宿 ( 山手)線) " " 新宿 " " 山手)線) ").1 (by decide) (by decide)).trans
      (by decide),
   ((regex_name_and_hint "  Ueno " "" "").2.1 (by decide)).trans (by decide)⟩

/-- C5: the parser at `"A(B)(C)"`, a field with two `(`.  `strings.Split` cuts
at every `(` and gives the three pieces `"A"`, `"B)"`, `"C)"`; the length is not
2, so the branch of the field without `(` is taken: the parser does not fail,
the name is `"A"`, the text before the first `(`, and not the whole trimmed
field, and the hint is dropped.  The same happens at `"Shibuya(A)(Ginza)"`. -/
theorem regex_two_parens_drops_hint :
    1 < "A(B)(C)".data.count '('
    ∧ Split "A(B)(C)" '(' = ["A", "B)", "C)"]
    ∧ regex "A(B)(C)" = some ("A", "")
    ∧ regex "A(B)(C)" ≠ some (TrimSpace "A(B)(C)", "")
    ∧ regex "Shibuya(A)(Ginza)" = some ("Shibuya", "") := by
  decide

/-- C6 fails as stated: with the candidates (prefecture Tokyo, line X, postal
100) and (prefecture Y, line Tokyo, postal 200) and the hint Tokyo, a candidate's
line equals the hint, yet the selected candidate is the first one, matched by
its prefecture, and not the first candidate whose line equals the hint. -/
theorem getLine_line_precedence_counterexample :
    "Tokyo" ≠ ""
    ∧ (∃ s ∈ [mkStation "Tokyo" "X" "100", mkStation "Y" "Tokyo" "200"], s.Line = "Tokyo")
    ∧ (GetLine [mkStation "Tokyo" "X" "100", mkStation "Y" "Tokyo" "200"] "Tokyo").1
        = some (mkStation "Tokyo" "X" "100")
    ∧ [mkStation "Tokyo" "X" "100", mkStation "Y" "Tokyo" "200"].find?
          (fun s => decide (s.Line = "Tokyo")) = some (mkStation "Y" "Tokyo" "200")
    ∧ (GetLine [mkStation "Tokyo" "X" "100", mkStation "Y" "Tokyo" "200"] "Tokyo").1
        ≠ [mkStation "Tokyo" "X" "100", mkStation "Y" "Tokyo" "200"].find?
            (fun s => decide (s.Line = "Tokyo")) := by
  refine ⟨by decide, ⟨mkStation "Y" "Tokyo" "200", by decide, by decide⟩, by decide, by decide,
    by decide⟩

/-- C6 as amended: the selected candidate is the first candidate in list order
whose line or prefecture equals the hint, and no error is returned; if no
candidate's line equals the hint it is the first candidate whose prefecture
equals the hint, and if no candidate's prefecture equals the hint it is the
first candidate whose line equals the hint; the example of the claim selects
postal 200. -/
theorem getLine_first_match (stations : List Station) (hint : String) :
    (GetLine stations hint).1
        = stations.find? (fun s => decide (s.Line = hint ∨ s.Prefecture = hint))
    ∧ (GetLine stations hint).2 = none
    ∧ ((∀ s ∈ stations, s.Line ≠ hint) →
        (GetLine stations hint).1 = stations.find? (fun s => decide (s.Prefecture = hint)))
    ∧ ((∀ s ∈ stations, s.Prefecture ≠ hint) →
        (GetLine stations hint).1 = stations.find? (fun s => decide (s.Line = hint)))
    ∧ (GetLine [mkStation "" "Yamanote" "100", mkStation "" "Ginza" "200"] "Ginza").1.map
        (fun s => s.Postal) = some "200" := by
  refine ⟨getLine_fst stations hint, getLine_snd stations hint, ?_, ?_, by decide⟩
  · intro h
    rw [getLine_fst]
    apply find_congr_of_forall
    intro s hs
    simp [h s hs]
  · intro h
    rw [getLine_fst]
    apply find_congr_of_forall
    intro s hs
    simp [h s hs]

/-- Witness of the amended C6: a list without line match selects by prefecture,
and a list without prefecture match selects by line. -/
theorem getLine_first_match_witness :
    (GetLine [mkStation "Chiba" "Sobu" "1", mkStation "Tokyo" "Chuo" "2",
              mkStation "Tokyo" "Ginza" "3"] "Tokyo").1 = some (mkStation "Tokyo" "Chuo" "2")
    ∧ (GetLine [mkStation "Chiba" "Sobu" "1", mkStation "Tokyo" "Ginza" "3"] "Ginza").1
        = some (mkStation "Tokyo" "Ginza" "3") :=
  ⟨((getLine_first_match [mkStation "Chiba" "Sobu" "1", mkStation "Tokyo" "Chuo" "2",
        mkStation "Tokyo" "Ginza" "3"] "Tokyo").2.2.1 (by decide)).trans (by decide),
   ((getLine_first_match [mkStation "Chiba" "Sobu" "1", mkStation "Tokyo" "Ginza" "3"]
        "Ginza").2.2.2.1 (by decide)).trans (by decide)⟩

/-- The row written for a data row whose loop body sends the Result `r`. -/
theorem main_cell (http : Request) (records : List (List String)) (sched : List Actor)
    (prefs : List (List String)) (k : Nat) (row : List String) (events : List Event) (r : Result)
    (hw : main http records sched = .wrote prefs) (hk : records[k + 1]? = some row)
    (hev : workerBody http { index := k, record := row } = some events)
    (hs : sent events = [r]) : prefs[k]? = some [render r] := by
  obtain ⟨header, rows, hrec, _, hcell⟩ := main_wrote http records sched prefs hw
  subst hrec
  rw [List.getElem?_cons_succ] at hk
  obtain ⟨events1, r1, hev1, hs1, hp⟩ := hcell k row hk
  rw [hev] at hev1
  injection hev1 with hev1
  subst hev1
  rw [hs] at hs1
  injection hs1 with hs1
  subst hs1
  exact hp

/-! ## The claims on the collector, the worker and the batch -/

/-- C1: for every `M` and every arrival order `rs` of Results whose indices are
a permutation of `0..M-1`, the collector loop on the slice made for `M` rows
ends with `M` entries, the entry at a Result's index is that Result's rendering
(`"ERROR"` if its `err` is non-nil, otherwise its address), and every other
arrival order of the same Results gives the same slice. -/
theorem collector_order (M : Nat) (rs : List Result)
    (hperm : (rs.map (fun r => r.index)).Perm ((List.range M).map (fun i : Nat => (i : Int)))) :
    ∃ results out, makeSlice (M : Int) = some results ∧ collect results rs = some out
      ∧ out.length = M
      ∧ (∀ r ∈ rs, out[r.index.toNat]? = some (if r.err.isSome then "ERROR" else r.address))
      ∧ (∀ rs1 : List Result, rs1.Perm rs → collect results rs1 = some out) := by
  obtain ⟨out, hc, hl, hcell⟩ := collect_of_perm M rs hperm
  refine ⟨List.replicate M "", out, by simp [makeSlice], hc, hl, hcell, ?_⟩
  intro rs1 h1
  exact collect_perm_eq M rs rs1 out hperm hc h1

/-- Witness of C1: three Results arriving in the order 2, 0, 1, the one with
index 0 carrying an error. -/
theorem collector_order_witness :
    ∃ results out, makeSlice ((3 : Nat) : Int) = some results
      ∧ collect results [⟨2, "c", none⟩, ⟨0, "a", some ⟨"failed"⟩⟩, ⟨1, "b", none⟩] = some out
      ∧ out.length = 3
      ∧ out[0]? = some "ERROR" ∧ out[1]? = some "b" ∧ out[2]? = some "c" := by
  obtain ⟨results, out, hm, hc, hl, hcell, _⟩ :=
    collector_order 3 [⟨2, "c", none⟩, ⟨0, "a", some ⟨"failed"⟩⟩, ⟨1, "b", none⟩] (by decide)
  exact ⟨results, out, hm, hc, hl, hcell ⟨0, "a", some ⟨"failed"⟩⟩ (by decide),
    hcell ⟨1, "b", none⟩ (by decide), hcell ⟨2, "c", none⟩ (by decide)⟩

/-- C2: for every resolver and every job whose record has a first field, one
pass of the worker's loop body does not panic and sends exactly one Result,
whose index is the job's index; a worker holding the job appends exactly that
one Result to the result channel and returns to the head of its loop. -/
theorem worker_pass_sends_one (http : Request) (job : Job) (h : job.record ≠ []) :
    ∃ events r, workerBody http job = some events ∧ sent events = [r] ∧ r.index = job.index
      ∧ ∀ (p : Pool) (w : Nat), p.workers[w]? = some (.busy job) →
          p.stepWorker http w = some { p with resultsChan := p.resultsChan ++ [r],
                                              workers := p.workers.set w .idle } := by
  obtain ⟨events, hev⟩ := workerBody_ne_none http job h
  obtain ⟨r, hs, hi⟩ := sent_of_workerBody http job events hev
  refine ⟨events, r, hev, hs, hi, ?_⟩
  intro p w hw
  simp [Pool.stepWorker, hw, hev, hs]

/-- Witness of C2: a job whose station lookup fails. -/
theorem worker_pass_sends_one_witness :
    ∃ events r, workerBody demoRequest ⟨7, ["Nowhere (Ginza)", "x"]⟩ = some events
      ∧ sent events = [r] ∧ r.index = 7 := by
  obtain ⟨events, r, hev, hs, hi, _⟩ :=
    worker_pass_sends_one demoRequest ⟨7, ["Nowhere (Ginza)", "x"]⟩ (by decide)
  exact ⟨events, r, hev, hs, hi⟩

/-- C3: for every resolver and every table, a run of `main` to the end exists
when the table has a header and every data row has a first field; and in every
run that reaches the end, under whatever schedule, there is one written row per
data row, the row of an item whose station lookup or address lookup returns an
error is `"ERROR"`, the row written for data row `j` is the row that `main`
writes for the table holding data row `j` alone, and every other run that
reaches the end writes the same rows. -/
theorem failure_isolation (http : Request) (records : List (List String)) :
    ((∃ header rows, records = header :: rows ∧ ∀ row ∈ rows, row ≠ []) →
        ∃ sched prefs, main http records sched = .wrote prefs)
    ∧ ∀ (sched : List Actor) (prefs : List (List String)),
        main http records sched = .wrote prefs →
        prefs.length + 1 = records.length
        ∧ (∀ (k : Nat) (row : List String), records[k + 1]? = some row →
            (StationLookupFails http row ∨ AddressLookupFails http row) →
            prefs[k]? = some ["ERROR"])
        ∧ (∀ (j : Nat) (row header : List String) (sched1 : List Actor)
            (prefs1 : List (List String)),
            records[j + 1]? = some row → main http [header, row] sched1 = .wrote prefs1 →
            ∃ cell, prefs[j]? = some cell ∧ prefs1 = [cell])
        ∧ (∀ (sched2 : List Actor) (prefs2 : List (List String)),
            main http records sched2 = .wrote prefs2 → prefs2 = prefs) := by
  constructor
  · rintro ⟨header, rows, hrec, hrows⟩
    subst hrec
    obtain ⟨prefs, hp⟩ := main_serial http header rows hrows
    exact ⟨_, prefs, hp⟩
  · intro sched prefs hw
    obtain ⟨header, rows, hrec, hlen, hcell⟩ := main_wrote http records sched prefs hw
    subst hrec
    refine ⟨by simp [hlen], ?_, ?_, ?_⟩
    · intro k row hk hfail
      rw [List.getElem?_cons_succ] at hk
      obtain ⟨events, r, hev, hs, hp⟩ := hcell k row hk
      rw [hp, render_of_lookup_fails http row hfail k events r hev hs]
    rotate_left
    · intro sched2 prefs2 hw2
      obtain ⟨header2, rows2, hrec2, hlen2, hcell2⟩ := main_wrote http _ sched2 prefs2 hw2
      injection hrec2 with _ hrows2
      subst hrows2
      apply List.ext_getElem?
      intro i
      by_cases hi : i < rows.length
      · obtain ⟨events, r, hev, hs, hp⟩ := hcell i rows[i] (by simp [hi])
        obtain ⟨events2, r2, hev2, hs2, hp2⟩ := hcell2 i rows[i] (by simp [hi])
        rw [hev] at hev2
        injection hev2 with hev2
        subst hev2
        rw [hs] at hs2
        injection hs2 with hs2
        subst hs2
        rw [hp, hp2]
      · rw [List.getElem?_eq_none (by omega), List.getElem?_eq_none (by omega)]
    · intro j row header1 sched1 prefs1 hj hw1
      rw [List.getElem?_cons_succ] at hj
      obtain ⟨events, r, hev, hs, hp⟩ := hcell j row hj
      obtain ⟨h1, rows1, hrec1, hlen1, hcell1⟩ := main_wrote http _ sched1 prefs1 hw1
      injection hrec1 with _ hrows1
      subst hrows1
      obtain ⟨events1, r1, hev1, hs1, hp1⟩ := hcell1 0 row rfl
      obtain ⟨address, err, hout⟩ := workerBody_outcome http row
      have e := hout j events hev
      have e1 := hout ((0 : Nat) : Int) events1 hev1
      rw [hs] at e
      rw [hs1] at e1
      injection e with e
      injection e1 with e1
      refine ⟨[render r], hp, ?_⟩
      have hr : render r1 = render r := by
        rw [e, e1]
        rfl
      rw [hr] at hp1
      cases prefs1 with
      | nil => simp at hlen1
      | cons c rest =>
        cases rest with
        | nil =>
          simp only [List.getElem?_cons_zero, Option.some.injEq] at hp1
          rw [hp1]
        | cons d rest2 => simp at hlen1

/-- Witness of C3 on a table of six data rows, the fourth failing in the
station lookup and the fifth in the address lookup, under a schedule in which
the Results arrive out of order. -/
theorem failure_isolation_witness :
    (∃ sched prefs, main demoRequest demoRecords sched = .wrote prefs)
    ∧ demoPrefs.length + 1 = demoRecords.length
    ∧ demoPrefs[3]? = some ["ERROR"]
    ∧ demoPrefs[4]? = some ["ERROR"]
    ∧ (∃ cell, demoPrefs[1]? = some cell ∧ [["TokyoShibuya-kuDogenzaka"]] = [cell]) :=
  ⟨(failure_isolation demoRequest demoRecords).1 ⟨["station"], demoRecords.tail, rfl, by decide⟩,
   ((failure_isolation demoRequest demoRecords).2 mixedSchedule demoPrefs (by decide)).1,
   ((failure_isolation demoRequest demoRecords).2 mixedSchedule demoPrefs (by decide)).2.1
      3 ["Nowhere"] (by decide)
      (Or.inl ⟨"Nowhere", "Nowhere", "", ⟨"station lookup failed"⟩, by decide, by decide, rfl⟩),
   ((failure_isolation demoRequest demoRecords).2 mixedSchedule demoPrefs (by decide)).2.1
      4 ["Shibuya (Keio)"] (by decide)
      (Or.inr ⟨0, _, postalURL "400", ⟨"address lookup failed"⟩, rfl, by decide, rfl⟩),
   ((failure_isolation demoRequest demoRecords).2 mixedSchedule demoPrefs (by decide)).2.2.1
      1 ["Shibuya"] ["station"] (serialSchedule 1) [["TokyoShibuya-kuDogenzaka"]]
      (by decide) (by decide)⟩

/-- C7: for a job whose parsed hint is empty and whose station lookup succeeds:
with a non-empty candidate list the loop body makes exactly one address lookup,
for the postal code of the first candidate; with an empty list it makes no
address lookup and sends the Result with address `"ERROR"` and nil `err`. -/
theorem worker_empty_hint (http : Request) (job : Job) (field name : String)
    (stationRes : StationResponse)
    (h0 : job.record[0]? = some field) (hr : regex field = some (name, ""))
    (hst : http.StationToAddress (stationURL ++ name) = .ok stationRes) :
    (∀ first rest, stationRes.Response.Stations = first :: rest →
      ∃ events, workerBody http job = some events
        ∧ addressCalls events = [postalURL first.Postal])
    ∧ (stationRes.Response.Stations = [] →
      ∃ events, workerBody http job = some events ∧ addressCalls events = []
        ∧ sent events = [{ index := job.index, address := "ERROR", err := none }]) := by
  have hw := workerBody_of_parse http job field name "" h0 hr
  rw [hst] at hw
  simp only [ne_eq, not_true_eq_false, if_false] at hw
  constructor
  · intro first rest hs
    rw [hs] at hw
    exact ⟨_, hw, by simp [addressCalls, addressCalls_workerAddress]⟩
  · intro hs
    rw [hs] at hw
    exact ⟨_, hw, rfl, rfl⟩

/-- Witness of C7: the field "Shibuya" (four candidates, the first with postal
100) and the field "Empty" (no candidate). -/
theorem worker_empty_hint_witness :
    (∃ events, workerBody demoRequest ⟨1, ["Shibuya"]⟩ = some events
      ∧ addressCalls events = [postalURL "100"])
    ∧ (∃ events, workerBody demoRequest ⟨5, ["Empty"]⟩ = some events ∧ addressCalls events = []
      ∧ sent events = [{ index := 5, address := "ERROR", err := none }]) :=
  ⟨(worker_empty_hint demoRequest ⟨1, ["Shibuya"]⟩ "Shibuya" "Shibuya" _ (by decide) (by decide)
      rfl).1 (mkStation "Tokyo" "Yamanote" "100") _ rfl,
   (worker_empty_hint demoRequest ⟨5, ["Empty"]⟩ "Empty" "Empty" _ (by decide) (by decide)
      rfl).2 rfl⟩

/-- C8: for a job whose parsed hint is non-empty and whose station lookup
succeeds with candidates none of which has the hint as line or as prefecture,
the loop body makes no address lookup and sends the Result with nil `err` and
address `"ERROR"`, which is rendered `"ERROR"`; and the row written for the item
by every run of `main` that reaches the end is `"ERROR"`. -/
theorem no_match_sentinel (http : Request) (job : Job) (field name hint : String)
    (stationRes : StationResponse)
    (h0 : job.record[0]? = some field) (hr : regex field = some (name, hint))
    (hne : hint ≠ "")
    (hst : http.StationToAddress (stationURL ++ name) = .ok stationRes)
    (hno : ∀ s ∈ stationRes.Response.Stations, s.Line ≠ hint ∧ s.Prefecture ≠ hint) :
    (∃ events, workerBody http job = some events ∧ addressCalls events = []
      ∧ sent events = [{ index := job.index, address := "ERROR", err := none }])
    ∧ render { index := job.index, address := "ERROR", err := none } = "ERROR"
    ∧ ∀ (records : List (List String)) (sched : List Actor) (prefs : List (List String))
        (k : Nat), job.index = k → records[k + 1]? = some job.record →
        main http records sched = .wrote prefs → prefs[k]? = some ["ERROR"] := by
  have hw := workerBody_of_parse http job field name hint h0 hr
  rw [hst] at hw
  simp only [ne_eq, hne, not_false_eq_true, if_true,
    getLine_none_of_no_match stationRes.Response.Stations hint hno] at hw
  refine ⟨⟨_, hw, rfl, rfl⟩, rfl, ?_⟩
  intro records sched prefs k hk hrow hmain
  obtain ⟨index, record⟩ := job
  simp only at hk hrow hw
  subst hk
  exact main_cell http records sched prefs k record _ _ hmain hrow hw rfl

/-- Witness of C8: the hint "Tozai2" matches no candidate of "Shibuya". -/
theorem no_match_sentinel_witness :
    (∃ events, workerBody demoRequest ⟨0, ["Shibuya (Tozai2)"]⟩ = some events
      ∧ addressCalls events = []
      ∧ sent events = [{ index := 0, address := "ERROR", err := none }])
    ∧ render { index := 0, address := "ERROR", err := none } = "ERROR" :=
  ⟨(no_match_sentinel demoRequest ⟨0, ["Shibuya (Tozai2)"]⟩ "Shibuya (Tozai2)" "Shibuya" "Tozai2"
      _ (by decide) (by decide) (by decide) rfl (by decide)).1,
   (no_match_sentinel demoRequest ⟨0, ["Shibuya (Tozai2)"]⟩ "Shibuya (Tozai2)" "Shibuya" "Tozai2"
      _ (by decide) (by decide) (by decide) rfl (by decide)).2.1⟩

/-- C9: the formatted address of a response without addresses is the empty
string, and that of a response with addresses is the concatenation of the first
address's Japanese prefecture, address1 and address2; for a job whose station
lookup succeeds, for which a candidate is selected and whose address lookup
succeeds, the Result sent has nil `err` and the formatted address, and with an
empty address list it is rendered as the empty string, not as `"ERROR"`, also in
the row written by every run of `main` that reaches the end. -/
theorem empty_address_is_not_error (http : Request) (job : Job) (field name hint : String)
    (stationRes : StationResponse) (st : Station) (addressRes : AddressResponse)
    (h0 : job.record[0]? = some field) (hr : regex field = some (name, hint))
    (hst : http.StationToAddress (stationURL ++ name) = .ok stationRes)
    (hsel : (hint ≠ "" ∧ (stationRes.Response.GetLine hint).1 = some st)
      ∨ (hint = "" ∧ stationRes.Response.Stations.head? = some st))
    (had : http.PostalCodeToPref (postalURL st.Postal) = .ok addressRes) :
    (addressRes.Addresses = [] → addressRes.GetFormattedJapaneseAddress = "")
    ∧ (∀ first rest, addressRes.Addresses = first :: rest →
        addressRes.GetFormattedJapaneseAddress
          = first.Japanese.Prefecture ++ first.Japanese.Address1 ++ first.Japanese.Address2)
    ∧ (∃ events, workerBody http job = some events
        ∧ sent events = [(⟨job.index, addressRes.GetFormattedJapaneseAddress, none⟩ : Result)])
    ∧ (addressRes.Addresses = [] →
        render (⟨job.index, addressRes.GetFormattedJapaneseAddress, none⟩ : Result) = ""
        ∧ render (⟨job.index, addressRes.GetFormattedJapaneseAddress, none⟩ : Result) ≠ "ERROR"
        ∧ ∀ (records : List (List String)) (sched : List Actor) (prefs : List (List String))
            (k : Nat), job.index = k → records[k + 1]? = some job.record →
            main http records sched = .wrote prefs → prefs[k]? = some [""]) := by
  have hfmt : addressRes.Addresses = [] → addressRes.GetFormattedJapaneseAddress = "" := by
    intro he
    simp [AddressResponse.GetFormattedJapaneseAddress, he]
  have hbody : workerBody http job = some
      [.stationLookup (stationURL ++ name), .addressLookup (postalURL st.Postal),
       .send (⟨job.index, addressRes.GetFormattedJapaneseAddress, none⟩ : Result)] := by
    have hw := workerBody_of_parse http job field name hint h0 hr
    rw [hst] at hw
    rcases hsel with ⟨hne, hg⟩ | ⟨he, hh⟩
    · simp only [Response.GetLine] at hg
      simp only [ne_eq, hne, not_false_eq_true, if_true, hg] at hw
      simpa [workerAddress, had] using hw
    · cases hs : stationRes.Response.Stations with
      | nil => simp [hs] at hh
      | cons first rest =>
        rw [hs] at hh
        simp only [List.head?_cons, Option.some.injEq] at hh
        subst hh
        simp only [he, ne_eq, not_true_eq_false, if_false, hs] at hw
        simpa [workerAddress, had] using hw
  refine ⟨hfmt, ?_, ⟨_, hbody, rfl⟩, ?_⟩
  · intro first rest he
    simp [AddressResponse.GetFormattedJapaneseAddress, he]
  · intro he
    have hrender : render (⟨job.index, addressRes.GetFormattedJapaneseAddress, none⟩ : Result) = "" := by
      simp [render, hfmt he]
    refine ⟨hrender, by rw [hrender]; decide, ?_⟩
    intro records sched prefs k hk hrow hmain
    obtain ⟨index, record⟩ := job
    simp only at hk hrow hbody hrender
    subst hk
    have := main_cell http records sched prefs k record _ _ hmain hrow hbody rfl
    rw [this, hrender]

/-- Witness of C9: the field "Shibuya (Tozai)" selects postal 300, whose address
lookup succeeds without addresses. -/
theorem empty_address_is_not_error_witness :
    (∃ events, workerBody demoRequest ⟨2, ["Shibuya (Tozai)"]⟩ = some events
        ∧ sent events = [{ index := 2, address := "", err := none }])
    ∧ render { index := 2, address := "", err := none } = ""
    ∧ (mkAddress "Tokyo" "Shibuya-ku" "Dogenzaka").GetFormattedJapaneseAddress
        = "Tokyo" ++ "Shibuya-ku" ++ "Dogenzaka" :=
  ⟨(empty_address_is_not_error demoRequest ⟨2, ["Shibuya (Tozai)"]⟩ "Shibuya (Tozai)" "Shibuya"
      "Tozai" _ (mkStation "Chiba" "Tozai" "300") _ (by decide) (by decide) rfl
      (Or.inl ⟨by decide, by decide⟩) rfl).2.2.1,
   ((empty_address_is_not_error demoRequest ⟨2, ["Shibuya (Tozai)"]⟩ "Shibuya (Tozai)" "Shibuya"
      "Tozai" _ (mkStation "Chiba" "Tozai" "300") _ (by decide) (by decide) rfl
      (Or.inl ⟨by decide, by decide⟩) rfl).2.2.2 rfl).1,
   (empty_address_is_not_error demoRequest ⟨0, ["Shibuya"]⟩ "Shibuya" "Shibuya"
      "" _ (mkStation "Tokyo" "Yamanote" "100") _ (by decide) (by decide) rfl
      (Or.inr ⟨rfl, rfl⟩) rfl).2.1 _ _ rfl⟩

/-- C10: for a table of `R ≥ 1` rows, `main` makes the result slice, the job
channel and the result channel with size `R - 1 ≥ 0`, drops the header, and sends
`R - 1` jobs, job `i` carrying index `i` and row `i + 1`; for the table without
rows the size is `-1`, the allocation of the result slice panics, and `main`
panics under every schedule. -/
theorem batch_sizing (records : List (List String)) :
    (1 ≤ records.length →
      (0 : Int) ≤ (records.length : Int) - 1
      ∧ ∃ setup, mainSetup records = some setup
        ∧ (setup.results.length : Int) = (records.length : Int) - 1
        ∧ (setup.jobsCap : Int) = (records.length : Int) - 1
        ∧ (setup.resultsCap : Int) = (records.length : Int) - 1
        ∧ (setup.toSend.length : Int) = (records.length : Int) - 1
        ∧ ∀ i : Nat, i + 1 < records.length →
            ∃ row, records[i + 1]? = some row
              ∧ setup.toSend[i]? = some { index := i, record := row })
    ∧ (records.length = 0 →
      (records.length : Int) - 1 = -1
      ∧ makeSlice ((records.length : Int) - 1) = none
      ∧ mainSetup records = none
      ∧ ∀ (http : Request) (sched : List Actor), main http records sched = .panicked) := by
  constructor
  · intro hlen
    cases records with
    | nil => simp at hlen
    | cons header rows =>
      refine ⟨by simp, _, mainSetup_cons header rows, by simp, by simp, by simp,
        by simp [jobsFrom_length], ?_⟩
      intro i hi
      simp only [List.length_cons, Nat.add_lt_add_iff_right] at hi
      refine ⟨rows[i], by simp [hi], ?_⟩
      rw [jobsFrom_getElem]
      simp [hi]
  · intro hlen
    have hnil : records = [] := List.length_eq_zero.mp hlen
    subst hnil
    refine ⟨by simp, by simp [makeSlice], mainSetup_nil, ?_⟩
    intro http sched
    simp [main, mainSetup_nil]

/-- Witness of C10: a table of a header and two rows, and the empty table. -/
theorem batch_sizing_witness :
    (∃ setup, mainSetup [["h"], ["a"], ["b"]] = some setup
        ∧ (setup.results.length : Int) = 2 ∧ (setup.jobsCap : Int) = 2
        ∧ (setup.resultsCap : Int) = 2 ∧ (setup.toSend.length : Int) = 2
        ∧ (∃ row, ([["h"], ["a"], ["b"]] : List (List String))[1 + 1]? = some row
            ∧ setup.toSend[1]? = some { index := 1, record := row }))
    ∧ main demoRequest [] mixedSchedule = .panicked := by
  obtain ⟨setup, hs, h1, h2, h3, h4, h5⟩ := ((batch_sizing [["h"], ["a"], ["b"]]).1 (by decide)).2
  exact ⟨⟨setup, hs, h1, h2, h3, h4, h5 1 (by decide)⟩,
    ((batch_sizing []).2 rfl).2.2.2 demoRequest mixedSchedule⟩

end StationCsv
